import Mathlib

/-!
Shallow embedding of the `mt-empty/http-server` core (src/main.rs): the
header model, request parser, encoding negotiator, router and response
builder.  Strings are modelled as `List Char` (mirroring Rust `&str`
operations character by character) and wire bytes as `List Nat`
(UTF-8 bytes).  The gzip/deflate codecs live in the external `flate2`
crate, so serialization is parameterized by an arbitrary pair of byte
transformers.  Every `.unwrap()` in the source that can panic is modelled
by an `Option`, with `none` standing for the panic.
-/

set_option autoImplicit false
set_option maxRecDepth 8192

def str (s : String) : List Char := s.data

def crlf : List Char := ['\r', '\n']

/-- Rust `str::split_once(CR_LF)`: split at the first occurrence of `"\r\n"`. -/
def splitOnceCrlf : List Char → Option (List Char × List Char)
  | [] => none
  | [_] => none
  | c :: d :: rest =>
    if c = '\r' ∧ d = '\n' then some ([], rest)
    else (splitOnceCrlf (d :: rest)).map (fun p => (c :: p.1, p.2))

/-- Rust `str::rsplit_once(CR_LF)`: split at the last occurrence of `"\r\n"`. -/
def rsplitOnceCrlf : List Char → Option (List Char × List Char)
  | [] => none
  | [_] => none
  | c :: d :: rest =>
    match rsplitOnceCrlf (d :: rest) with
    | some p => some (c :: p.1, p.2)
    | none => if c = '\r' ∧ d = '\n' then some ([], rest) else none

/-- Whether `"\r\n"` occurs anywhere in the string. -/
def hasCrlf : List Char → Bool
  | [] => false
  | [_] => false
  | c :: d :: rest => (c = '\r' && d = '\n') || hasCrlf (d :: rest)

/-- Number of (left-to-right, non-overlapping) occurrences of `"\r\n"`. -/
def crlfCount : List Char → Nat
  | [] => 0
  | [_] => 0
  | c :: d :: rest =>
    if c = '\r' ∧ d = '\n' then crlfCount rest + 1 else crlfCount (d :: rest)

/-- Rust `str::split(CR_LF)`: split on every occurrence of `"\r\n"`. -/
def splitCrlf : List Char → List (List Char)
  | [] => [[]]
  | [c] => [[c]]
  | c :: d :: rest =>
    if c = '\r' ∧ d = '\n' then [] :: splitCrlf rest
    else
      match splitCrlf (d :: rest) with
      | [] => [[c]]
      | t :: ts => (c :: t) :: ts

/-- Rust `str::split_once(sep)` for a single-character separator. -/
def splitOnceChar (sep : Char) : List Char → Option (List Char × List Char)
  | [] => none
  | c :: rest =>
    if c = sep then some ([], rest)
    else (splitOnceChar sep rest).map (fun p => (c :: p.1, p.2))

/-- Rust `str::split(sep)` for a single-character separator. -/
def splitOnChar (sep : Char) : List Char → List (List Char)
  | [] => [[]]
  | c :: rest =>
    if c = sep then [] :: splitOnChar sep rest
    else
      match splitOnChar sep rest with
      | [] => [[c]]
      | t :: ts => (c :: t) :: ts

/-- Rust `str::trim`: drop whitespace from both ends. -/
def trimStr (s : List Char) : List Char :=
  ((s.dropWhile Char.isWhitespace).reverse.dropWhile Char.isWhitespace).reverse

/-- Rust `str::split_whitespace`, accumulator form. -/
def splitWsAux : List Char → List Char → List (List Char)
  | [], acc => if acc.isEmpty then [] else [acc.reverse]
  | c :: rest, acc =>
    if c.isWhitespace then
      if acc.isEmpty then splitWsAux rest [] else acc.reverse :: splitWsAux rest []
    else splitWsAux rest (c :: acc)

/-- Rust `str::split_whitespace`: whitespace-separated words, no empties. -/
def split_whitespace (s : List Char) : List (List Char) :=
  splitWsAux s []

/-- Number of bytes of the UTF-8 encoding of one character. -/
def charUtf8 (c : Char) : List Nat :=
  let n := c.toNat
  if n < 0x80 then [n]
  else if n < 0x800 then [0xC0 + n / 64, 0x80 + n % 64]
  else if n < 0x10000 then [0xE0 + n / 4096, 0x80 + n / 64 % 64, 0x80 + n % 64]
  else [0xF0 + n / 262144, 0x80 + n / 4096 % 64, 0x80 + n / 64 % 64, 0x80 + n % 64]

/-- UTF-8 byte sequence of a string (Rust `str::as_bytes` / `String::into_bytes`). -/
def utf8Bytes : List Char → List Nat
  | [] => []
  | c :: rest => charUtf8 c ++ utf8Bytes rest

def utf8Size (c : Char) : Nat := (charUtf8 c).length

/-- Rust byte slicing `&s[..n]`: take exactly `n` UTF-8 bytes, `none` when `n`
is out of bounds or falls inside a multi-byte character (a panic in Rust). -/
def takeBytes : Nat → List Char → Option (List Char)
  | 0, _ => some []
  | _ + 1, [] => none
  | n + 1, c :: rest =>
    if utf8Size c ≤ n + 1 then (takeBytes (n + 1 - utf8Size c) rest).map (c :: ·)
    else none

/-- Rust `str::parse::<usize>`: optional leading `+`, then decimal digits.
(Rust additionally fails on values above `usize::MAX`; `Nat` does not
overflow, and on such inputs every use below ends in the same panic either
at the parse or at the subsequent out-of-bounds slice.) -/
def parseUsize (s : List Char) : Option Nat :=
  let digits := match s with
    | '+' :: rest => rest
    | _ => s
  if digits.isEmpty then none
  else if digits.all Char.isDigit then
    some (digits.foldl (fun acc c => acc * 10 + (c.toNat - 48)) 0)
  else none

def natDigitChar (n : Nat) : Char := Char.ofNat (48 + n % 10)

def natToStrAux : Nat → Nat → List Char
  | 0, _ => []
  | fuel + 1, n =>
    if n < 10 then [natDigitChar n]
    else natToStrAux fuel (n / 10) ++ [natDigitChar (n % 10)]

/-- Decimal representation of a natural number (Rust `usize::to_string`). -/
def natToStr (n : Nat) : List Char := natToStrAux (n + 1) n

/-! ## Header model (the closed enumerations of src/main.rs) -/

inductive StatusCode
  | Ok | Created | BadRequest | NotFound | InternalServerError
deriving DecidableEq, Repr

/-- The numeric value of the status (`self.status_code as u16`). -/
def StatusCode.code : StatusCode → Nat
  | .Ok => 200
  | .Created => 201
  | .BadRequest => 400
  | .NotFound => 404
  | .InternalServerError => 500

/-- The strum serialization (`StatusCode::to_string`). -/
def StatusCode.to_string : StatusCode → List Char
  | .Ok => str "OK"
  | .Created => str "Created"
  | .BadRequest => str "Bad Request"
  | .NotFound => str "Not Found"
  | .InternalServerError => str "Internal Server Error"

inductive SupprotedHeader
  | ContentType | ContentLength | ContentEncoding | UserAgent | AcceptEncoding
deriving DecidableEq, Repr

def SupprotedHeader.to_string : SupprotedHeader → List Char
  | .ContentType => str "Content-Type"
  | .ContentLength => str "Content-Length"
  | .ContentEncoding => str "Content-Encoding"
  | .UserAgent => str "User-Agent"
  | .AcceptEncoding => str "Accept-Encoding"

def SupprotedHeader.from_str (s : List Char) : Option SupprotedHeader :=
  if s = str "Content-Type" then some .ContentType
  else if s = str "Content-Length" then some .ContentLength
  else if s = str "Content-Encoding" then some .ContentEncoding
  else if s = str "User-Agent" then some .UserAgent
  else if s = str "Accept-Encoding" then some .AcceptEncoding
  else none

inductive ContentType
  | TextPlain | ApplicationJson | ApplicationOctetStream | TextHtml
deriving DecidableEq, Repr

def ContentType.to_string : ContentType → List Char
  | .TextPlain => str "text/plain"
  | .ApplicationJson => str "application/json"
  | .ApplicationOctetStream => str "application/octet-stream"
  | .TextHtml => str "text/html"

inductive SupportedEncoding
  | Gzip | Deflate
deriving DecidableEq, Repr

def SupportedEncoding.to_string : SupportedEncoding → List Char
  | .Gzip => str "gzip"
  | .Deflate => str "deflate"

def SupportedEncoding.from_str (s : List Char) : Option SupportedEncoding :=
  if s = str "gzip" then some .Gzip
  else if s = str "deflate" then some .Deflate
  else none

inductive HttpMethod
  | Get | Post | Put | Delete | Patch | Head | Options | Connect | Trace
deriving DecidableEq, Repr

def HttpMethod.from_str (s : List Char) : Option HttpMethod :=
  if s = str "GET" then some .Get
  else if s = str "POST" then some .Post
  else if s = str "PUT" then some .Put
  else if s = str "DELETE" then some .Delete
  else if s = str "PATCH" then some .Patch
  else if s = str "HEAD" then some .Head
  else if s = str "OPTIONS" then some .Options
  else if s = str "CONNECT" then some .Connect
  else if s = str "TRACE" then some .Trace
  else none

inductive HttpVersion
  | Http1_0 | Http1_1 | Http2_0
deriving DecidableEq, Repr

def HttpVersion.to_string : HttpVersion → List Char
  | .Http1_0 => str "HTTP/1.0"
  | .Http1_1 => str "HTTP/1.1"
  | .Http2_0 => str "HTTP/2.0"

def HttpVersion.from_str (s : List Char) : Option HttpVersion :=
  if s = str "HTTP/1.0" then some .Http1_0
  else if s = str "HTTP/1.1" then some .Http1_1
  else if s = str "HTTP/2.0" then some .Http2_0
  else none

structure Header where
  key : SupprotedHeader
  value : List Char
deriving DecidableEq, Repr

/-- `Header::parse_headers`: keep the recognized names, drop the rest. -/
def Header.parse_headers (headers : List (List Char × List Char)) : List Header :=
  headers.filterMap fun p => (SupprotedHeader.from_str p.1).map fun key => Header.mk key p.2

/-- `SupportedEncoding::retrieve_supported_encodings`. -/
def SupportedEncoding.retrieve_supported_encodings (headers : List Header) :
    List SupportedEncoding :=
  match headers.find? fun h => h.key = SupprotedHeader.AcceptEncoding with
  | some encoding_header =>
    (splitOnChar ',' (trimStr encoding_header.value)).filterMap fun value =>
      SupportedEncoding.from_str (trimStr value)
  | none => []

/-! ## Request parser -/

structure HttpRequest where
  method : HttpMethod
  path : List Char
  version : HttpVersion
  headers : List Header
  body : List Char
deriving DecidableEq, Repr

def HttpRequest.get_header_value (r : HttpRequest) (key : SupprotedHeader) :
    Option (List Char) :=
  (r.headers.find? fun header => header.key = key).map fun header => header.value

/-- `extract_request_components`: first-CRLF then last-CRLF split.  `none`
models the panic of the two `.unwrap()` calls. -/
def extract_request_components (https_request : List Char) :
    Option (List Char × List Char × List Char) :=
  match splitOnceCrlf https_request with
  | none => none
  | some (status_line, rest) =>
    match rsplitOnceCrlf rest with
    | none => none
    | some (header_line, body_line) => some (status_line, header_line, body_line)

/-- The `.map(|header| header.split_once(":").unwrap()).collect()` loop of
`extract_request_headers`: `none` models the panic of `unwrap` on a line
with no `:`. -/
def collectSplitColon : List (List Char) → Option (List (List Char × List Char))
  | [] => some []
  | header :: rest =>
    match splitOnceChar ':' header with
    | none => none
    | some kv => (collectSplitColon rest).map (kv :: ·)

/-- `extract_request_headers`: split the header block on CRLF, discard empty
lines, split each remaining line at its first `:` (panicking on a line with
no `:`). -/
def extract_request_headers (header_line : List Char) :
    Option (List (List Char × List Char)) :=
  collectSplitColon ((splitCrlf header_line).filter fun header => !header.isEmpty)

/-- `HttpRequest::new`.  `none` is a panic; `some (.error msg)` is the
`anyhow` failure whose display string is `msg`; `some (.ok r)` is success.
The strum `from_str` failures display as "Matching variant not found". -/
def HttpRequest.new (http_request : List Char) :
    Option (Except (List Char) HttpRequest) :=
  match extract_request_components http_request with
  | none => none
  | some (status_line, header_line, body_line) =>
    let status_parts := split_whitespace status_line
    if status_parts.length ≠ 3 then some (.error (str "Invalid status line"))
    else
      match HttpMethod.from_str (status_parts.getD 0 []) with
      | none => some (.error (str "Matching variant not found"))
      | some method =>
        let path := status_parts.getD 1 []
        match HttpVersion.from_str (status_parts.getD 2 []) with
        | none => some (.error (str "Matching variant not found"))
        | some version =>
          match extract_request_headers header_line with
          | none => none
          | some raw_headers =>
            some (.ok
              { method, path, version,
                headers := Header.parse_headers raw_headers,
                body := body_line })

/-! ## Response builder -/

/-- The two compression codecs of the external `flate2` crate, as abstract
byte transformers (their output bytes are arbitrary). -/
structure Codecs where
  gzipBytes : List Char → List Nat
  deflateBytes : List Char → List Nat

structure HttpResponse where
  status_code : StatusCode
  headers : List Header
  body : List Char
  encoding_type : Option SupportedEncoding
deriving Repr

def HttpResponse.new (status_code : StatusCode) (headers : List Header)
    (body : List Char) (encoding_type : Option SupportedEncoding) : HttpResponse :=
  { status_code, headers, body, encoding_type }

/-- `HttpResponse::compress_string`: encode the body with the selected codec. -/
def HttpResponse.compress_string (C : Codecs) (r : HttpResponse)
    (encoding_type : SupportedEncoding) : List Nat :=
  match encoding_type with
  | .Gzip => C.gzipBytes r.body
  | .Deflate => C.deflateBytes r.body

/-- `HttpResponse::create_content_length_header`. -/
def HttpResponse.create_content_length_header (body : List Nat) : Header :=
  Header.mk SupprotedHeader.ContentLength (natToStr body.length)

/-- The status line `"{HTTP/1.1} {code} {reason}"` of `body_to_bytes`. -/
def HttpResponse.status_line_str (r : HttpResponse) : List Char :=
  HttpVersion.to_string .Http1_1 ++ str " " ++ natToStr r.status_code.code
    ++ str " " ++ StatusCode.to_string r.status_code

/-- One formatted header line `"{key}: {value}"`. -/
def formatHeader (h : Header) : List Char :=
  SupprotedHeader.to_string h.key ++ str ": " ++ h.value

/-- Rust `Vec::join(CR_LF)`. -/
def joinCrlf : List (List Char) → List Char
  | [] => []
  | [x] => x
  | x :: y :: ys => x ++ crlf ++ joinCrlf (y :: ys)

/-- The wire body chosen by `body_to_bytes`: the compressed bytes when an
encoding was selected, the raw UTF-8 bytes of the body otherwise. -/
def HttpResponse.wireBody (C : Codecs) (r : HttpResponse) : List Nat :=
  match r.encoding_type with
  | some encoding_type => r.compress_string C encoding_type
  | none => utf8Bytes r.body

/-- The header sequence assembled by `body_to_bytes`: the response's own
headers, then a default Content-Type when none is present, then (when an
encoding was selected) a Content-Encoding header whose value the source
always formats from `SupportedEncoding::Gzip`, then Content-Length. -/
def HttpResponse.finalHeaders (C : Codecs) (r : HttpResponse) : List Header :=
  let headers1 :=
    if r.headers.any fun header => header.key = SupprotedHeader.ContentType then r.headers
    else r.headers ++ [Header.mk SupprotedHeader.ContentType (ContentType.to_string .TextPlain)]
  let headers2 :=
    match r.encoding_type with
    | some _ =>
      headers1 ++ [Header.mk SupprotedHeader.ContentEncoding (SupportedEncoding.to_string .Gzip)]
    | none => headers1
  headers2 ++ [HttpResponse.create_content_length_header (r.wireBody C)]

/-- `HttpResponse::body_to_bytes`: serialize status line, headers, blank
line, then the wire body. -/
def HttpResponse.body_to_bytes (C : Codecs) (r : HttpResponse) : List Nat :=
  let headers1 :=
    if r.headers.any fun header => header.key = SupprotedHeader.ContentType then r.headers
    else r.headers ++ [Header.mk SupprotedHeader.ContentType (ContentType.to_string .TextPlain)]
  let (headers2, body) :=
    match r.encoding_type with
    | some encoding_type =>
      (headers1 ++ [Header.mk SupprotedHeader.ContentEncoding (SupportedEncoding.to_string .Gzip)],
        r.compress_string C encoding_type)
    | none => (headers1, utf8Bytes r.body)
  let headers3 := headers2 ++ [HttpResponse.create_content_length_header body]
  let formatted_headers := joinCrlf (headers3.map formatHeader) ++ crlf
  utf8Bytes (r.status_line_str ++ crlf ++ formatted_headers ++ crlf) ++ body

/-! ## Encoding negotiator and connection handler -/

/-- Lines 342-350 of `handle_client`: gzip is selected exactly when it is
among the recognized Accept-Encoding tokens; nothing else is ever selected. -/
def select_content_encoding (headers : List Header) : Option SupportedEncoding :=
  if SupportedEncoding.Gzip ∈ SupportedEncoding.retrieve_supported_encodings headers
  then some SupportedEncoding.Gzip
  else none

/-- The injected file-storage capability (`std::fs` calls of the handler). -/
structure FileSystem where
  read : List Char → Option (List Char)
  write : List Char → List Char → Bool

/-- `handle_client`, from the decoded request buffer to the response written
back (before serialization).  `none` models a panic: no response at all. -/
def handle_client (fs : FileSystem) (directory : List Char)
    (http_request : List Char) : Option HttpResponse :=
  match HttpRequest.new http_request with
  | none => none
  | some (.error e) => some (HttpResponse.new .BadRequest [] e none)
  | some (.ok req) =>
    let response_headers : List Header := []
    let content_encoding := select_content_encoding req.headers
    if req.method = .Get ∧ req.path = str "/" then
      some (HttpResponse.new .Ok response_headers (str "Hello, World!") content_encoding)
    else if req.method = .Get ∧ (str "/echo/").isPrefixOf req.path then
      some (HttpResponse.new .Ok response_headers (req.path.drop 6) content_encoding)
    else if req.method = .Get ∧ req.path = str "/user-agent" then
      match (req.headers.find? fun header => header.key = SupprotedHeader.UserAgent).map
          (fun header => trimStr header.value) with
      | some user_agent =>
        some (HttpResponse.new .Ok response_headers user_agent content_encoding)
      | none =>
        some (HttpResponse.new .BadRequest response_headers (str "Bad Request") content_encoding)
    else if req.method = .Get ∧ (str "/files/").isPrefixOf req.path then
      match fs.read (directory ++ req.path.drop 7) with
      | none =>
        some (HttpResponse.new .NotFound response_headers
          (StatusCode.to_string .NotFound) content_encoding)
      | some file_content =>
        some (HttpResponse.new .Ok
          (response_headers ++
            [Header.mk SupprotedHeader.ContentType (ContentType.to_string .ApplicationOctetStream)])
          file_content content_encoding)
    else if req.method = .Post ∧ (str "/files/").isPrefixOf req.path then
      match (req.headers.find? fun header => header.key = SupprotedHeader.ContentLength).map
          (fun header => trimStr header.value) with
      | none => none
      | some content_length_str =>
        match parseUsize content_length_str with
        | none => none
        | some content_length =>
          match takeBytes content_length req.body with
          | none => none
          | some body =>
            if fs.write (directory ++ req.path.drop 7) body then
              some (HttpResponse.new .Created response_headers
                (StatusCode.to_string .Created) content_encoding)
            else
              some (HttpResponse.new .InternalServerError response_headers
                (str "Internal Server Error") content_encoding)
    else
      some (HttpResponse.new .NotFound req.headers
        (StatusCode.to_string .NotFound) content_encoding)

/-- A concrete file system for witnesses: every read misses, every write fails. -/
def fs0 : FileSystem := ⟨fun _ => none, fun _ _ => false⟩

/-- A concrete file system for witnesses: every read misses, every write succeeds. -/
def fs1 : FileSystem := ⟨fun _ => none, fun _ _ => true⟩

/-- Concrete codecs for counterexamples and witnesses. -/
def codecs0 : Codecs := ⟨fun _ => [0], fun _ => [1]⟩

/-! ## Lemmas about the string primitives -/

theorem hasCrlf_singleton (c : Char) : hasCrlf [c] = false := rfl

theorem hasCrlf_cons_of {c d : Char} {t : List Char} (h : ¬(c = '\r' ∧ d = '\n'))
    (ht : hasCrlf (d :: t) = false) : hasCrlf (c :: d :: t) = false := by
  rw [hasCrlf, ht]
  simp only [Bool.or_false, Bool.and_eq_false_iff, decide_eq_false_iff_not]
  by_cases hc : c = '\r'
  · exact Or.inr fun hd => h ⟨hc, hd⟩
  · exact Or.inl hc

theorem hasCrlf_tail {c : Char} {t : List Char} (h : hasCrlf (c :: t) = false) :
    hasCrlf t = false := by
  match t with
  | [] => rfl
  | d :: t =>
    rw [hasCrlf, Bool.or_eq_false_iff] at h
    exact h.2

theorem splitOnceCrlf_spec : ∀ (s a b : List Char),
    splitOnceCrlf s = some (a, b) →
    s = a ++ '\r' :: '\n' :: b ∧ hasCrlf a = false
  | [], a, b, h => by simp [splitOnceCrlf] at h
  | [c], a, b, h => by simp [splitOnceCrlf] at h
  | c :: d :: rest, a, b, h => by
    rw [splitOnceCrlf] at h
    split at h
    · rename_i hcd
      obtain ⟨rfl, rfl⟩ := hcd
      obtain ⟨rfl, rfl⟩ := Prod.mk.injEq .. ▸ Option.some.inj h
      exact ⟨rfl, rfl⟩
    · rename_i hcd
      cases hsub : splitOnceCrlf (d :: rest) with
      | none => rw [hsub] at h; simp at h
      | some p =>
        obtain ⟨a', b'⟩ := p
        rw [hsub] at h
        simp only [Option.map_some'] at h
        obtain ⟨rfl, rfl⟩ := Prod.mk.injEq .. ▸ Option.some.inj h
        obtain ⟨heq, hfree⟩ := splitOnceCrlf_spec (d :: rest) a' b' hsub
        refine ⟨by rw [List.cons_append, ← heq], ?_⟩
        match a', heq with
        | [], _ => exact hasCrlf_singleton c
        | x :: t, heq =>
          obtain ⟨rfl, -⟩ := List.cons.injEq .. ▸ heq
          exact hasCrlf_cons_of hcd hfree

theorem rsplitOnceCrlf_none_hasCrlf : ∀ (s : List Char),
    rsplitOnceCrlf s = none → hasCrlf s = false
  | [], _ => rfl
  | [_], _ => rfl
  | c :: d :: rest, h => by
    rw [rsplitOnceCrlf] at h
    cases hsub : rsplitOnceCrlf (d :: rest) with
    | some p => rw [hsub] at h; simp at h
    | none =>
      rw [hsub] at h
      by_cases hcd : c = '\r' ∧ d = '\n'
      · simp only [if_pos hcd] at h
        simp at h
      · exact hasCrlf_cons_of hcd (rsplitOnceCrlf_none_hasCrlf (d :: rest) hsub)

theorem hasCrlf_rsplitOnceCrlf_none : ∀ (s : List Char),
    hasCrlf s = false → rsplitOnceCrlf s = none
  | [], _ => rfl
  | [_], _ => rfl
  | c :: d :: rest, h => by
    rw [hasCrlf, Bool.or_eq_false_iff, Bool.and_eq_false_iff] at h
    obtain ⟨hcd, ht⟩ := h
    simp only [decide_eq_false_iff_not] at hcd
    simp only [rsplitOnceCrlf, hasCrlf_rsplitOnceCrlf_none (d :: rest) ht]
    exact if_neg fun hh => hcd.elim (fun h1 => h1 hh.1) (fun h1 => h1 hh.2)

theorem rsplitOnceCrlf_spec : ∀ (s a b : List Char),
    rsplitOnceCrlf s = some (a, b) →
    s = a ++ '\r' :: '\n' :: b ∧ hasCrlf b = false
  | [], a, b, h => by simp [rsplitOnceCrlf] at h
  | [c], a, b, h => by simp [rsplitOnceCrlf] at h
  | c :: d :: rest, a, b, h => by
    rw [rsplitOnceCrlf] at h
    cases hsub : rsplitOnceCrlf (d :: rest) with
    | some p =>
      obtain ⟨a', b'⟩ := p
      rw [hsub] at h
      obtain ⟨rfl, rfl⟩ := Prod.mk.injEq .. ▸ Option.some.inj h
      obtain ⟨heq, hfree⟩ := rsplitOnceCrlf_spec (d :: rest) a' b' hsub
      exact ⟨by rw [List.cons_append, ← heq], hfree⟩
    | none =>
      rw [hsub] at h
      by_cases hcd : c = '\r' ∧ d = '\n'
      · simp only [if_pos hcd] at h
        obtain ⟨rfl, rfl⟩ := Prod.mk.injEq .. ▸ Option.some.inj h
        obtain ⟨rfl, rfl⟩ := hcd
        exact ⟨rfl, hasCrlf_tail (rsplitOnceCrlf_none_hasCrlf _ hsub)⟩
      · simp only [if_neg hcd] at h
        simp at h

theorem hasCrlf_of_crlfCount_zero : ∀ (s : List Char),
    crlfCount s = 0 → hasCrlf s = false
  | [], _ => rfl
  | [_], _ => rfl
  | c :: d :: rest, h => by
    rw [crlfCount] at h
    by_cases hcd : c = '\r' ∧ d = '\n'
    · rw [if_pos hcd] at h
      exact absurd h (Nat.succ_ne_zero _)
    · rw [if_neg hcd] at h
      exact hasCrlf_cons_of hcd (hasCrlf_of_crlfCount_zero (d :: rest) h)

theorem crlfCount_append : ∀ (a b : List Char), hasCrlf a = false →
    crlfCount (a ++ '\r' :: '\n' :: b) = crlfCount b + 1
  | [], b, _ => by rw [List.nil_append, crlfCount, if_pos ⟨rfl, rfl⟩]
  | [x], b, _ => by
    rw [List.cons_append, List.nil_append, crlfCount,
      if_neg (fun hh : x = '\r' ∧ '\r' = '\n' => by exact absurd hh.2 (by decide)),
      crlfCount, if_pos ⟨rfl, rfl⟩]
  | x :: y :: t, b, h => by
    rw [List.cons_append]
    have hxy : ¬(x = '\r' ∧ y = '\n') := by
      intro hh
      rw [hasCrlf, hh.1, hh.2] at h
      simp at h
    rw [show (y :: t) ++ '\r' :: '\n' :: b = y :: (t ++ '\r' :: '\n' :: b) from rfl,
      crlfCount, if_neg hxy]
    exact crlfCount_append (y :: t) b (hasCrlf_tail h)

theorem splitOnceChar_spec (sep : Char) : ∀ (s k v : List Char),
    splitOnceChar sep s = some (k, v) →
    s = k ++ sep :: v ∧ sep ∉ k
  | [], k, v, h => by simp [splitOnceChar] at h
  | c :: rest, k, v, h => by
    rw [splitOnceChar] at h
    by_cases hc : c = sep
    · rw [if_pos hc] at h
      obtain ⟨rfl, rfl⟩ := Prod.mk.injEq .. ▸ Option.some.inj h
      exact ⟨by rw [hc]; rfl, List.not_mem_nil sep⟩
    · rw [if_neg hc] at h
      cases hsub : splitOnceChar sep rest with
      | none => rw [hsub] at h; simp at h
      | some p =>
        obtain ⟨k', v'⟩ := p
        rw [hsub] at h
        simp only [Option.map_some'] at h
        obtain ⟨rfl, rfl⟩ := Prod.mk.injEq .. ▸ Option.some.inj h
        obtain ⟨heq, hnot⟩ := splitOnceChar_spec sep rest k' v' hsub
        refine ⟨by rw [List.cons_append, ← heq], ?_⟩
        intro hmem
        rcases List.mem_cons.mp hmem with hmem | hmem
        · exact hc hmem.symm
        · exact hnot hmem

theorem utf8Bytes_append : ∀ (a b : List Char),
    utf8Bytes (a ++ b) = utf8Bytes a ++ utf8Bytes b
  | [], b => rfl
  | c :: rest, b => by
    rw [List.cons_append, utf8Bytes, utf8Bytes, utf8Bytes_append rest b, List.append_assoc]

theorem getLast?_append_singleton {α : Type} (l : List α) (a : α) :
    (l ++ [a]).getLast? = some a := by
  simp

/-- `body_to_bytes` decomposed: the serialized response is the status line,
CRLF, the formatted final headers joined by CRLF, a terminating CRLF, the
blank-line CRLF, and then the wire body. -/
theorem body_to_bytes_decomposition (C : Codecs) (r : HttpResponse) :
    r.body_to_bytes C =
      utf8Bytes (r.status_line_str ++ crlf
        ++ joinCrlf ((r.finalHeaders C).map formatHeader) ++ crlf ++ crlf)
      ++ r.wireBody C := by
  rw [HttpResponse.body_to_bytes, HttpResponse.finalHeaders, HttpResponse.wireBody]
  cases r.encoding_type <;> simp only [List.append_assoc]

theorem utf8Bytes_cons_length (c : Char) (t : List Char) :
    (utf8Bytes (c :: t)).length = utf8Size c + (utf8Bytes t).length := by
  rw [utf8Bytes, List.length_append, utf8Size]

theorem utf8Size_pos (c : Char) : 1 ≤ utf8Size c := by
  rw [utf8Size, charUtf8]
  repeat' split
  all_goals simp

/-- The `&s[..n]` slice panics exactly when no character-boundary prefix of
`s` has UTF-8 byte length `n`: when `n` exceeds the byte length of `s` or
falls inside a multi-byte character. -/
theorem takeBytes_none_iff : ∀ (n : Nat) (s : List Char),
    takeBytes n s = none ↔ ∀ t u, s = t ++ u → (utf8Bytes t).length ≠ n
  | 0, s => by
    constructor
    · intro h
      exact absurd h (by rw [takeBytes]; simp)
    · intro h
      exact absurd rfl (h [] s rfl)
  | n + 1, [] => by
    constructor
    · intro _ t u htu
      obtain ⟨rfl, rfl⟩ := List.append_eq_nil.mp htu.symm
      simp [utf8Bytes]
    · intro _
      rfl
  | n + 1, c :: rest => by
    rw [takeBytes]
    by_cases hsz : utf8Size c ≤ n + 1
    · rw [if_pos hsz, Option.map_eq_none', takeBytes_none_iff (n + 1 - utf8Size c) rest]
      constructor
      · intro h t u htu
        match t, htu with
        | [], _ => simp [utf8Bytes]
        | x :: t2, htu =>
          obtain ⟨rfl, hru⟩ := List.cons.injEq .. ▸ htu
          rw [utf8Bytes_cons_length]
          intro hlen
          exact h t2 u hru (by omega)
      · intro h t u htu
        have := h (c :: t) u (by rw [htu, List.cons_append])
        rw [utf8Bytes_cons_length] at this
        intro hlen
        exact this (by omega)
    · rw [if_neg hsz]
      constructor
      · intro _ t u htu
        match t, htu with
        | [], _ => simp [utf8Bytes]
        | x :: t2, htu =>
          obtain ⟨rfl, hru⟩ := List.cons.injEq .. ▸ htu
          rw [utf8Bytes_cons_length]
          omega
      · intro _
        rfl

/-! ## Claim theorems -/

/-- C1: For every serialized response, under any compression codecs, the
serialized bytes are the status line, the formatted headers, the blank line,
and then exactly the wire body (the post-compression bytes when an encoding
was selected); and the final header list ends with a Content-Length header
whose value is the decimal byte length of that wire body — it is the last
header emitted, hence after any Content-Encoding header. -/
theorem content_length_exact_and_last (C : Codecs) (r : HttpResponse) :
    r.body_to_bytes C =
      utf8Bytes (r.status_line_str ++ crlf
        ++ joinCrlf ((r.finalHeaders C).map formatHeader) ++ crlf ++ crlf)
      ++ r.wireBody C ∧
    (r.finalHeaders C).getLast? =
      some (Header.mk .ContentLength (natToStr (r.wireBody C).length)) := by
  refine ⟨body_to_bytes_decomposition C r, ?_⟩
  rw [HttpResponse.finalHeaders]
  exact getLast?_append_singleton _ _

/-- C2 counterexample: a response whose selected encoding is Deflate is
compressed with the deflate codec, yet the serializer emits a
Content-Encoding header valued "gzip" — never one naming deflate, the
scheme actually used.  Concrete input: `HttpResponse.new .Ok [] [] (some
.Deflate)` with the codecs `codecs0`. -/
theorem content_encoding_names_scheme_counterexample :
    (HttpResponse.new .Ok [] [] (some .Deflate)).encoding_type = some .Deflate ∧
    (HttpResponse.new .Ok [] [] (some .Deflate)).wireBody codecs0 =
      codecs0.deflateBytes [] ∧
    Header.mk .ContentEncoding (SupportedEncoding.to_string .Deflate) ∉
      (HttpResponse.new .Ok [] [] (some .Deflate)).finalHeaders codecs0 ∧
    Header.mk .ContentEncoding (SupportedEncoding.to_string .Gzip) ∈
      (HttpResponse.new .Ok [] [] (some .Deflate)).finalHeaders codecs0 := by
  refine ⟨rfl, rfl, ?_, ?_⟩ <;> decide

/-- C2 amended: with a selected encoding the wire body is the body compressed
by the selected codec (gzip codec for Gzip, deflate codec for Deflate), and a
Content-Encoding header is appended whose value is always the string "gzip",
regardless of which encoding was selected, directly before the final
Content-Length header; with no selected encoding the wire body is the body's
raw UTF-8 bytes and no header is appended beyond the Content-Type default
and Content-Length. -/
theorem encoding_serialization (C : Codecs) (r : HttpResponse) :
    (match r.encoding_type with
     | some e =>
        r.wireBody C = r.compress_string C e ∧
        r.finalHeaders C =
          (if r.headers.any (fun h => h.key = SupprotedHeader.ContentType) then r.headers
           else r.headers ++ [Header.mk .ContentType (ContentType.to_string .TextPlain)])
          ++ [Header.mk .ContentEncoding (SupportedEncoding.to_string .Gzip),
              HttpResponse.create_content_length_header (r.wireBody C)]
     | none =>
        r.wireBody C = utf8Bytes r.body ∧
        r.finalHeaders C =
          (if r.headers.any (fun h => h.key = SupprotedHeader.ContentType) then r.headers
           else r.headers ++ [Header.mk .ContentType (ContentType.to_string .TextPlain)])
          ++ [HttpResponse.create_content_length_header (r.wireBody C)]) := by
  obtain ⟨st, hs, bd, enc⟩ := r
  cases enc with
  | none => exact ⟨rfl, rfl⟩
  | some e =>
    refine ⟨rfl, ?_⟩
    simp [HttpResponse.finalHeaders, HttpResponse.wireBody, List.append_assoc]

/-- C3: the negotiator takes the first Accept-Encoding header, trims its
value, splits it on commas, trims each token and keeps the recognized ones
({gzip, deflate} via `SupportedEncoding.from_str`); when no such header is
present nothing is recognized; the selected response encoding is gzip
exactly when gzip is among the recognized tokens, is none exactly when it is
not — so deflate is never selected and no recognized token means no
compression. -/
theorem accept_encoding_negotiation (headers : List Header) :
    (match headers.find? (fun h => h.key = SupprotedHeader.AcceptEncoding) with
     | some h =>
        SupportedEncoding.retrieve_supported_encodings headers =
          (splitOnChar ',' (trimStr h.value)).filterMap
            (fun value => SupportedEncoding.from_str (trimStr value))
     | none => SupportedEncoding.retrieve_supported_encodings headers = []) ∧
    (select_content_encoding headers = some .Gzip ↔
      SupportedEncoding.Gzip ∈ SupportedEncoding.retrieve_supported_encodings headers) ∧
    (select_content_encoding headers = none ↔
      SupportedEncoding.Gzip ∉ SupportedEncoding.retrieve_supported_encodings headers) ∧
    select_content_encoding headers ≠ some .Deflate ∧
    (∀ (fs : FileSystem) (directory s : List Char) (req : HttpRequest) (resp : HttpResponse),
      HttpRequest.new s = some (.ok req) →
      handle_client fs directory s = some resp →
      resp.encoding_type = select_content_encoding req.headers) := by
  refine ⟨?_, ?_, ?_, ?_, ?_⟩
  · cases hf : headers.find? (fun h => h.key = SupprotedHeader.AcceptEncoding) <;>
      simp only [SupportedEncoding.retrieve_supported_encodings, hf]
  · rw [select_content_encoding]
    by_cases hg : SupportedEncoding.Gzip ∈ SupportedEncoding.retrieve_supported_encodings headers
    · rw [if_pos hg]
      exact ⟨fun _ => hg, fun _ => rfl⟩
    · rw [if_neg hg]
      exact ⟨fun h => Option.noConfusion h, fun h => absurd h hg⟩
  · rw [select_content_encoding]
    by_cases hg : SupportedEncoding.Gzip ∈ SupportedEncoding.retrieve_supported_encodings headers
    · rw [if_pos hg]
      exact ⟨fun h => Option.noConfusion h, fun h => absurd hg h⟩
    · rw [if_neg hg]
      exact ⟨fun _ => hg, fun _ => rfl⟩
  · rw [select_content_encoding]
    split
    · intro h
      exact SupportedEncoding.noConfusion (Option.some.inj h)
    · exact fun h => Option.noConfusion h
  · intro fs directory s req resp hreq hr
    simp only [handle_client, hreq] at hr
    repeat' split at hr
    all_goals
      first
      | (obtain rfl := Option.some.inj hr; rfl)
      | simp at hr

/-- C3 witness: an echo request advertising gzip yields a response whose
encoding field is exactly the negotiated one. -/
theorem accept_encoding_negotiation_witness :
    (HttpResponse.new .Ok [] (str "abc") (some .Gzip)).encoding_type =
      select_content_encoding [Header.mk .AcceptEncoding (str " gzip")] :=
  (accept_encoding_negotiation []).2.2.2.2 fs0 (str "/tmp/")
    (str "GET /echo/abc HTTP/1.1\r\nAccept-Encoding: gzip\r\n\r\n")
    { method := .Get, path := str "/echo/abc", version := .Http1_1,
      headers := [Header.mk .AcceptEncoding (str " gzip")], body := [] }
    (HttpResponse.new .Ok [] (str "abc") (some .Gzip))
    (by rfl) (by rfl)

/-- C4: whenever component extraction succeeds, the input decomposes as
status line, CRLF, header block, CRLF, body, where the status line contains
no CRLF (the split was at the first CRLF) and the body contains no CRLF (the
header/body split was at the last CRLF of the remainder). -/
theorem request_component_split (s sl hl bl : List Char)
    (h : extract_request_components s = some (sl, hl, bl)) :
    s = sl ++ crlf ++ hl ++ crlf ++ bl ∧ hasCrlf sl = false ∧ hasCrlf bl = false := by
  rw [extract_request_components] at h
  cases h1 : splitOnceCrlf s with
  | none => rw [h1] at h; simp at h
  | some p =>
    obtain ⟨a, rest⟩ := p
    simp only [h1] at h
    cases h2 : rsplitOnceCrlf rest with
    | none => rw [h2] at h; simp at h
    | some q =>
      obtain ⟨hd, bd⟩ := q
      rw [h2] at h
      simp only [Option.some.injEq, Prod.mk.injEq] at h
      obtain ⟨rfl, rfl, rfl⟩ := h
      obtain ⟨e1, f1⟩ := splitOnceCrlf_spec _ _ _ h1
      obtain ⟨e2, f2⟩ := rsplitOnceCrlf_spec _ _ _ h2
      subst e2
      exact ⟨by rw [e1]; simp [crlf], f1, f2⟩

/-- C4 witness: a concrete three-part buffer. -/
theorem request_component_split_witness :
    extract_request_components (str "A\r\nB\r\nC") = some (str "A", str "B", str "C") ∧
    (str "A\r\nB\r\nC" : List Char) = str "A" ++ crlf ++ str "B" ++ crlf ++ str "C" ∧
    hasCrlf (str "A") = false ∧ hasCrlf (str "C") = false := by
  refine ⟨by decide, ?_⟩
  have h := request_component_split (str "A\r\nB\r\nC") (str "A") (str "B") (str "C") (by decide)
  exact ⟨h.1, h.2.1, h.2.2⟩

/-- A parse failure makes the handler emit a 400 whose body is the reason,
with empty headers and no encoding: no routing or negotiation happens. -/
theorem handle_client_of_error (fs : FileSystem) (directory s msg : List Char)
    (h : HttpRequest.new s = some (.error msg)) :
    handle_client fs directory s = some (HttpResponse.new .BadRequest [] msg none) := by
  rw [handle_client, h]

/-- A parser panic propagates: the handler produces no response at all. -/
theorem handle_client_of_none (fs : FileSystem) (directory s : List Char)
    (h : HttpRequest.new s = none) :
    handle_client fs directory s = none := by
  rw [handle_client, h]

/-- C5: whenever component extraction succeeds but the status line does not
split into exactly 3 whitespace tokens, or its method token or version token
is outside the closed set, the parser returns a failure (never a request)
and the handler emits a 400 Bad Request whose body is the failure reason,
with empty response headers and no encoding — no routing attempted. -/
theorem bad_status_line_gives_400 (fs : FileSystem) (directory : List Char)
    (s sl hl bl : List Char)
    (hc : extract_request_components s = some (sl, hl, bl))
    (hbad : (split_whitespace sl).length ≠ 3 ∨
      HttpMethod.from_str ((split_whitespace sl).getD 0 []) = none ∨
      HttpVersion.from_str ((split_whitespace sl).getD 2 []) = none) :
    ∃ msg, HttpRequest.new s = some (.error msg) ∧
      handle_client fs directory s = some (HttpResponse.new .BadRequest [] msg none) := by
  by_cases hlen : (split_whitespace sl).length ≠ 3
  · have hnew : HttpRequest.new s = some (.error (str "Invalid status line")) := by
      simp only [HttpRequest.new, hc, if_pos hlen]
    exact ⟨_, hnew, handle_client_of_error fs directory s _ hnew⟩
  · rcases hbad with h | h | h
    · exact absurd h hlen
    · have hnew : HttpRequest.new s = some (.error (str "Matching variant not found")) := by
        simp only [HttpRequest.new, hc, if_neg hlen, h]
      exact ⟨_, hnew, handle_client_of_error fs directory s _ hnew⟩
    · cases hm : HttpMethod.from_str ((split_whitespace sl).getD 0 []) with
      | none =>
        have hnew : HttpRequest.new s = some (.error (str "Matching variant not found")) := by
          simp only [HttpRequest.new, hc, if_neg hlen, hm]
        exact ⟨_, hnew, handle_client_of_error fs directory s _ hnew⟩
      | some m =>
        have hnew : HttpRequest.new s = some (.error (str "Matching variant not found")) := by
          simp only [HttpRequest.new, hc, if_neg hlen, hm, h]
        exact ⟨_, hnew, handle_client_of_error fs directory s _ hnew⟩

/-- C5 witness: a two-token status line yields 400 with the failure reason. -/
theorem bad_status_line_gives_400_witness :
    extract_request_components (str "XX YY\r\n\r\n") = some (str "XX YY", [], []) ∧
    (split_whitespace (str "XX YY")).length ≠ 3 ∧
    ∃ msg, HttpRequest.new (str "XX YY\r\n\r\n") = some (.error msg) ∧
      handle_client fs0 (str "/tmp/") (str "XX YY\r\n\r\n") =
        some (HttpResponse.new .BadRequest [] msg none) :=
  ⟨by decide, by decide,
    bad_status_line_gives_400 fs0 (str "/tmp/") (str "XX YY\r\n\r\n") (str "XX YY") [] []
      (by decide) (Or.inl (by decide))⟩

/-- C8: on any input containing zero or one occurrence of CRLF, component
extraction panics (`none`): the parser returns neither a request nor a parse
failure, and the handler emits no response — in particular no 400. -/
theorem sparse_crlf_no_response (fs : FileSystem) (directory : List Char)
    (s : List Char) (h : crlfCount s ≤ 1) :
    extract_request_components s = none ∧
    HttpRequest.new s = none ∧
    handle_client fs directory s = none := by
  have hext : extract_request_components s = none := by
    cases h1 : splitOnceCrlf s with
    | none => simp only [extract_request_components, h1]
    | some p =>
      obtain ⟨a, rest⟩ := p
      obtain ⟨heq, hfree⟩ := splitOnceCrlf_spec _ _ _ h1
      have hcount : crlfCount s = crlfCount rest + 1 := by
        rw [heq]; exact crlfCount_append a rest hfree
      have hzero : crlfCount rest = 0 := by omega
      have hrs : rsplitOnceCrlf rest = none :=
        hasCrlf_rsplitOnceCrlf_none rest (hasCrlf_of_crlfCount_zero rest hzero)
      simp only [extract_request_components, h1, hrs]
  have hnew : HttpRequest.new s = none := by
    simp only [HttpRequest.new, hext]
  exact ⟨hext, hnew, handle_client_of_none fs directory s hnew⟩

/-- C8 witness: a bare status line with no CRLF at all. -/
theorem sparse_crlf_no_response_witness :
    crlfCount (str "GET / HTTP/1.1") ≤ 1 ∧
    extract_request_components (str "GET / HTTP/1.1") = none ∧
    HttpRequest.new (str "GET / HTTP/1.1") = none ∧
    handle_client fs0 (str "/tmp/") (str "GET / HTTP/1.1") = none :=
  ⟨by decide, sparse_crlf_no_response fs0 (str "/tmp/") (str "GET / HTTP/1.1") (by decide)⟩

/-- C7: for every well-formed request with method GET and path exactly
`/user-agent`, the handler responds 200 with body the trimmed value of the
first User-Agent header when one is present, and 400 with body "Bad
Request" when none is present (including when one was dropped as
unrecognized during parsing). -/
theorem user_agent_route (fs : FileSystem) (directory : List Char)
    (s : List Char) (req : HttpRequest)
    (hreq : HttpRequest.new s = some (.ok req))
    (hm : req.method = .Get) (hp : req.path = str "/user-agent") :
    handle_client fs directory s =
      some (match req.headers.find? (fun h => h.key = SupprotedHeader.UserAgent) with
        | some h =>
            HttpResponse.new .Ok [] (trimStr h.value) (select_content_encoding req.headers)
        | none =>
            HttpResponse.new .BadRequest [] (str "Bad Request")
              (select_content_encoding req.headers)) := by
  obtain ⟨m, p, v, hs, bd⟩ := req
  simp only at hm hp
  subst hm; subst hp
  simp only [handle_client, hreq]
  rw [if_neg (by decide), if_neg (by decide), if_pos (by decide)]
  cases hf : hs.find? (fun h => h.key = SupprotedHeader.UserAgent) <;> simp [hf]

/-- C7 witness: `GET /user-agent` with `User-Agent: test-agent` gives 200
with body `test-agent`. -/
theorem user_agent_route_witness :
    handle_client fs0 (str "/tmp/")
        (str "GET /user-agent HTTP/1.1\r\nUser-Agent: test-agent\r\n\r\n") =
      some (HttpResponse.new .Ok [] (str "test-agent") none) :=
  user_agent_route fs0 (str "/tmp/")
    (str "GET /user-agent HTTP/1.1\r\nUser-Agent: test-agent\r\n\r\n")
    { method := .Get, path := str "/user-agent", version := .Http1_1,
      headers := [⟨.UserAgent, str " test-agent"⟩], body := [] }
    (by rfl) rfl rfl

/-- C9: for every well-formed request matching no route, the handler builds
the 404 response with the request's own parsed headers as the response
header sequence, so each recognized request header is echoed back verbatim;
serialization then appends only the Content-Type default (when absent), any
Content-Encoding, and the computed Content-Length after that echoed prefix,
with Content-Length last. -/
theorem fallback_echoes_request_headers (fs : FileSystem) (directory : List Char)
    (s : List Char) (req : HttpRequest)
    (hreq : HttpRequest.new s = some (.ok req))
    (h1 : ¬(req.method = .Get ∧ req.path = str "/"))
    (h2 : ¬(req.method = .Get ∧ (str "/echo/").isPrefixOf req.path))
    (h3 : ¬(req.method = .Get ∧ req.path = str "/user-agent"))
    (h4 : ¬(req.method = .Get ∧ (str "/files/").isPrefixOf req.path))
    (h5 : ¬(req.method = .Post ∧ (str "/files/").isPrefixOf req.path)) :
    handle_client fs directory s =
      some (HttpResponse.new .NotFound req.headers (StatusCode.to_string .NotFound)
        (select_content_encoding req.headers)) ∧
    ∀ (C : Codecs) (resp : HttpResponse), handle_client fs directory s = some resp →
      ∃ rest, resp.finalHeaders C = req.headers ++ rest ∧
        rest.getLast? =
          some (HttpResponse.create_content_length_header (resp.wireBody C)) := by
  have hmain : handle_client fs directory s =
      some (HttpResponse.new .NotFound req.headers (StatusCode.to_string .NotFound)
        (select_content_encoding req.headers)) := by
    simp only [handle_client, hreq]
    rw [if_neg h1, if_neg h2, if_neg h3, if_neg h4, if_neg h5]
  refine ⟨hmain, fun C resp hr => ?_⟩
  rw [hmain] at hr
  obtain rfl := (Option.some.inj hr).symm
  rw [HttpResponse.finalHeaders]
  by_cases hct : req.headers.any (fun header => header.key = SupprotedHeader.ContentType)
  · cases he : select_content_encoding req.headers with
    | none =>
      refine ⟨[HttpResponse.create_content_length_header _], ?_, rfl⟩
      simp only [HttpResponse.new, he, if_pos hct]
    | some e =>
      refine ⟨[Header.mk .ContentEncoding (SupportedEncoding.to_string .Gzip),
        HttpResponse.create_content_length_header _], ?_, rfl⟩
      simp only [HttpResponse.new, he, if_pos hct, List.append_assoc]
      rfl
  · cases he : select_content_encoding req.headers with
    | none =>
      refine ⟨[Header.mk .ContentType (ContentType.to_string .TextPlain),
        HttpResponse.create_content_length_header _], ?_, rfl⟩
      simp only [HttpResponse.new, he, if_neg hct, List.append_assoc]
      rfl
    | some e =>
      refine ⟨[Header.mk .ContentType (ContentType.to_string .TextPlain),
        Header.mk .ContentEncoding (SupportedEncoding.to_string .Gzip),
        HttpResponse.create_content_length_header _], ?_, rfl⟩
      simp only [HttpResponse.new, he, if_neg hct, List.append_assoc]
      rfl

/-- C9 witness: an unrouted PUT request echoes its User-Agent header into
the 404 response, with Content-Type and Content-Length appended after it. -/
theorem fallback_echoes_request_headers_witness :
    handle_client fs0 (str "/tmp/") (str "PUT /x HTTP/1.1\r\nUser-Agent: u\r\n\r\n") =
      some (HttpResponse.new .NotFound [⟨.UserAgent, str " u"⟩] (str "Not Found") none) ∧
    ∃ rest,
      (HttpResponse.new .NotFound [⟨.UserAgent, str " u"⟩] (str "Not Found")
          none).finalHeaders codecs0 =
        [⟨.UserAgent, str " u"⟩] ++ rest ∧
      rest.getLast? =
        some (HttpResponse.create_content_length_header
          ((HttpResponse.new .NotFound [⟨.UserAgent, str " u"⟩] (str "Not Found")
            none).wireBody codecs0)) := by
  have h := fallback_echoes_request_headers fs0 (str "/tmp/")
    (str "PUT /x HTTP/1.1\r\nUser-Agent: u\r\n\r\n")
    { method := .Put, path := str "/x", version := .Http1_1,
      headers := [⟨.UserAgent, str " u"⟩], body := [] }
    (by rfl) (by decide) (by decide) (by decide) (by decide) (by decide)
  exact ⟨h.1, h.2 codecs0 _ h.1⟩

/-- C10: for every well-formed POST request with path prefix `/files/`: if
the Content-Length header is absent, or its trimmed value does not parse, or
the byte slice of the captured body at that length fails (out of bounds or
inside a multi-byte character), the handler produces no response at all; and
a 500 Internal Server Error response is produced only after a successful
Content-Length truncation whose filesystem write failed. -/
theorem post_files_content_length_partiality (fs : FileSystem) (directory : List Char)
    (s : List Char) (req : HttpRequest)
    (hreq : HttpRequest.new s = some (.ok req))
    (hm : req.method = .Post) (hp : (str "/files/").isPrefixOf req.path) :
    ((req.headers.find? fun h => h.key = SupprotedHeader.ContentLength) = none →
      handle_client fs directory s = none) ∧
    (∀ hcl, (req.headers.find? fun h => h.key = SupprotedHeader.ContentLength) = some hcl →
      parseUsize (trimStr hcl.value) = none → handle_client fs directory s = none) ∧
    (∀ hcl n, (req.headers.find? fun h => h.key = SupprotedHeader.ContentLength) = some hcl →
      parseUsize (trimStr hcl.value) = some n → takeBytes n req.body = none →
      handle_client fs directory s = none) ∧
    (∀ resp, handle_client fs directory s = some resp →
      resp.status_code = .InternalServerError →
      ∃ hcl n body,
        (req.headers.find? fun h => h.key = SupprotedHeader.ContentLength) = some hcl ∧
        parseUsize (trimStr hcl.value) = some n ∧
        takeBytes n req.body = some body ∧
        fs.write (directory ++ req.path.drop 7) body = false) ∧
    (∀ n, takeBytes n req.body = none ↔
      ∀ t u, req.body = t ++ u → (utf8Bytes t).length ≠ n) := by
  have hng : ∀ (P : Prop), ¬(req.method = .Get ∧ P) := by
    intro P hh
    rw [hm] at hh
    exact HttpMethod.noConfusion hh.1
  have hroute : handle_client fs directory s =
      (match (req.headers.find? fun h => h.key = SupprotedHeader.ContentLength).map
          (fun header => trimStr header.value) with
       | none => none
       | some content_length_str =>
         match parseUsize content_length_str with
         | none => none
         | some content_length =>
           match takeBytes content_length req.body with
           | none => none
           | some body =>
             if fs.write (directory ++ req.path.drop 7) body then
               some (HttpResponse.new .Created [] (StatusCode.to_string .Created)
                 (select_content_encoding req.headers))
             else
               some (HttpResponse.new .InternalServerError [] (str "Internal Server Error")
                 (select_content_encoding req.headers))) := by
    simp only [handle_client, hreq]
    rw [if_neg (hng _), if_neg (hng _), if_neg (hng _), if_neg (hng _), if_pos ⟨hm, hp⟩]
  refine ⟨?_, ?_, ?_, ?_, fun n => takeBytes_none_iff n req.body⟩
  · intro hfind
    rw [hroute, hfind]
    rfl
  · intro hcl hfind hparse
    rw [hroute]
    simp only [hfind, Option.map_some', hparse]
  · intro hcl n hfind hparse htake
    rw [hroute]
    simp only [hfind, Option.map_some', hparse, htake]
  · intro resp hr hstatus
    rw [hroute] at hr
    cases hfind : req.headers.find? fun h => h.key = SupprotedHeader.ContentLength with
    | none => rw [hfind] at hr; simp at hr
    | some hcl =>
      simp only [hfind, Option.map_some'] at hr
      cases hparse : parseUsize (trimStr hcl.value) with
      | none => rw [hparse] at hr; simp at hr
      | some n =>
        simp only [hparse] at hr
        cases htake : takeBytes n req.body with
        | none => rw [htake] at hr; simp at hr
        | some body =>
          simp only [htake] at hr
          cases hw : fs.write (directory ++ req.path.drop 7) body with
          | true =>
            rw [hw] at hr
            simp only [if_true] at hr
            obtain rfl := (Option.some.inj hr).symm
            simp [HttpResponse.new] at hstatus
          | false =>
            exact ⟨hcl, n, body, rfl, hparse, htake, hw⟩

/-- C10 witness: a POST to `/files/` with no Content-Length header produces
no response. -/
theorem post_files_content_length_partiality_witness :
    handle_client fs1 (str "/tmp/")
      (str "POST /files/a.txt HTTP/1.1\r\nUser-Agent: x\r\n\r\nbody") = none :=
  (post_files_content_length_partiality fs1 (str "/tmp/")
    (str "POST /files/a.txt HTTP/1.1\r\nUser-Agent: x\r\n\r\nbody")
    { method := .Post, path := str "/files/a.txt", version := .Http1_1,
      headers := [⟨.UserAgent, str " x"⟩], body := str "body" }
    (by rfl) rfl (by decide)).1 rfl

theorem splitOnceChar_none_of_not_mem (sep : Char) : ∀ (l : List Char),
    sep ∉ l → splitOnceChar sep l = none
  | [], _ => rfl
  | c :: rest, h => by
    rw [splitOnceChar, if_neg (fun hc => h (by rw [← hc]; exact List.mem_cons_self c rest)),
      splitOnceChar_none_of_not_mem sep rest (fun hm => h (List.mem_cons_of_mem c hm))]
    rfl

theorem collectSplitColon_spec : ∀ (lines : List (List Char))
    (pairs : List (List Char × List Char)),
    collectSplitColon lines = some pairs →
    List.Forall₂ (fun line p => line = p.1 ++ ':' :: p.2 ∧ (':' : Char) ∉ p.1) lines pairs
  | [], pairs, h => by
    obtain rfl := (Option.some.inj h).symm
    exact List.Forall₂.nil
  | l :: rest, pairs, h => by
    rw [collectSplitColon] at h
    cases hsp : splitOnceChar ':' l with
    | none => rw [hsp] at h; simp at h
    | some kv =>
      rw [hsp] at h
      cases hrest : collectSplitColon rest with
      | none => rw [hrest] at h; simp at h
      | some ps =>
        rw [hrest] at h
        simp only [Option.map_some', Option.some.injEq] at h
        subst h
        exact List.Forall₂.cons (splitOnceChar_spec ':' l kv.1 kv.2 (by rw [hsp]))
          (collectSplitColon_spec rest ps hrest)

theorem collectSplitColon_none : ∀ (lines : List (List Char)) (l : List Char),
    l ∈ lines → (':' : Char) ∉ l → collectSplitColon lines = none
  | [], l, hmem, _ => absurd hmem (List.not_mem_nil l)
  | x :: rest, l, hmem, hno => by
    rw [collectSplitColon]
    rcases List.mem_cons.mp hmem with rfl | hmem
    · rw [splitOnceChar_none_of_not_mem ':' l hno]
    · cases hsp : splitOnceChar ':' x with
      | none => rfl
      | some kv => rw [collectSplitColon_none rest l hmem hno]; rfl

/-- C6 counterexample: a request whose header block contains the non-empty
line "Nocolon" (no `:`), with a perfectly good status line, makes the parser
panic: no parse failure is returned and the handler emits no response at all
— in particular no 400. -/
theorem malformed_header_line_counterexample :
    extract_request_components (str "GET / HTTP/1.1\r\nNocolon\r\n\r\n") =
      some (str "GET / HTTP/1.1", str "Nocolon\r\n", []) ∧
    (splitCrlf (str "Nocolon\r\n")).filter (fun header => !header.isEmpty) =
      [str "Nocolon"] ∧
    (':' : Char) ∉ (str "Nocolon" : List Char) ∧
    HttpRequest.new (str "GET / HTTP/1.1\r\nNocolon\r\n\r\n") = none ∧
    handle_client fs0 (str "/tmp/") (str "GET / HTTP/1.1\r\nNocolon\r\n\r\n") = none :=
  ⟨by decide, by decide, by decide, rfl, rfl⟩

/-- C6 amended: each non-empty CRLF-separated line of the header block that
contains `:` is split at its first `:` into (name, value); a pair whose name
is outside the closed header set is silently dropped by `parse_headers`, not
an error; but a non-empty line containing no `:` makes header extraction
panic: the parser then returns no parse failure (no request either), and the
handler emits no response at all rather than a 400. -/
theorem header_line_parsing :
    (∀ (header_line : List Char) (pairs : List (List Char × List Char)),
      extract_request_headers header_line = some pairs →
      List.Forall₂ (fun line p => line = p.1 ++ ':' :: p.2 ∧ (':' : Char) ∉ p.1)
        ((splitCrlf header_line).filter (fun header => !header.isEmpty)) pairs) ∧
    (∀ (ps qs : List (List Char × List Char)) (p : List Char × List Char),
      SupprotedHeader.from_str p.1 = none →
      Header.parse_headers (ps ++ p :: qs) = Header.parse_headers (ps ++ qs)) ∧
    (∀ (header_line l : List Char),
      l ∈ (splitCrlf header_line).filter (fun header => !header.isEmpty) →
      (':' : Char) ∉ l → extract_request_headers header_line = none) ∧
    (∀ (s sl hl bl : List Char), extract_request_components s = some (sl, hl, bl) →
      extract_request_headers hl = none →
      ∀ r, HttpRequest.new s ≠ some (.ok r)) ∧
    (∀ (fs : FileSystem) (directory s : List Char),
      HttpRequest.new s = none → handle_client fs directory s = none) := by
  refine ⟨?_, ?_, ?_, ?_, ?_⟩
  · intro header_line pairs h
    exact collectSplitColon_spec _ _ h
  · intro ps qs p hnone
    simp [Header.parse_headers, List.filterMap_append, List.filterMap_cons, hnone]
  · intro header_line l hmem hno
    exact collectSplitColon_none _ _ hmem hno
  · intro s sl hl bl hc hh r
    simp only [HttpRequest.new, hc]
    by_cases hlen : (split_whitespace sl).length ≠ 3
    · rw [if_pos hlen]
      simp
    · rw [if_neg hlen]
      cases hm : HttpMethod.from_str ((split_whitespace sl).getD 0 []) with
      | none => simp
      | some m =>
        cases hv : HttpVersion.from_str ((split_whitespace sl).getD 2 []) with
        | none => simp
        | some v =>
          rw [hh]
          simp
  · intro fs directory s h
    exact handle_client_of_none fs directory s h

/-- C6 witness: the no-colon line "Nocolon" is a non-empty header-block line
and makes extraction and the whole handler produce nothing. -/
theorem header_line_parsing_witness :
    extract_request_headers (str "Nocolon\r\n") = none ∧
    handle_client fs0 (str "/tmp/") (str "GET / HTTP/1.1\r\nNocolon\r\n\r\n") = none :=
  ⟨header_line_parsing.2.2.1 (str "Nocolon\r\n") (str "Nocolon") (by decide) (by decide),
   header_line_parsing.2.2.2.2 fs0 (str "/tmp/")
     (str "GET / HTTP/1.1\r\nNocolon\r\n\r\n") (by rfl)⟩

/-! ## Concrete behavior checks -/

section BehaviorChecks
example : splitOnceCrlf (str "A\r\nB\r\nC") = some (str "A", str "B\r\nC") := by decide
example : rsplitOnceCrlf (str "A\r\nB\r\nC") = some (str "A\r\nB", str "C") := by decide
example : splitCrlf (str "A\r\nB\r\n") = [str "A", str "B", []] := by decide
example : split_whitespace (str " GET /  HTTP/1.1 ") = [str "GET", str "/", str "HTTP/1.1"] := by decide
example : takeBytes 2 (str "héllo") = none := by decide
example : takeBytes 3 (str "héllo") = some (str "hé") := by decide
example : parseUsize (str "42") = some 42 := by decide
example : natToStr 107 = str "107" := by decide
example :
    HttpRequest.new (str "GET /user-agent HTTP/1.1\r\nUser-Agent: test-agent\r\n\r\n") =
      some (.ok
        { method := .Get, path := str "/user-agent", version := .Http1_1,
          headers := [⟨.UserAgent, str " test-agent"⟩], body := [] }) := by rfl
example : HttpRequest.new (str "GET / HTTP/1.1") = none := by rfl
example : HttpRequest.new (str "GET / HTTP/1.1\r\nNocolon\r\n\r\n") = none := by rfl
example :
    HttpRequest.new (str "XX YY\r\n\r\n") = some (.error (str "Invalid status line")) := by rfl
example :
    handle_client fs0 (str "/tmp/") (str "GET /user-agent HTTP/1.1\r\nUser-Agent: test-agent\r\n\r\n") =
      some (HttpResponse.new .Ok [] (str "test-agent") none) := by rfl
example :
    handle_client fs0 (str "/tmp/") (str "GET /echo/abc HTTP/1.1\r\nAccept-Encoding: gzip\r\n\r\n") =
      some (HttpResponse.new .Ok [] (str "abc") (some .Gzip)) := by rfl
example :
    handle_client fs0 (str "/tmp/") (str "POST /files/a.txt HTTP/1.1\r\nUser-Agent: x\r\n\r\nbody") =
      none := by rfl
example :
    handle_client fs0 (str "/tmp/")
        (str "POST /files/a.txt HTTP/1.1\r\nContent-Length: 4\r\n\r\nbody") =
      some (HttpResponse.new .InternalServerError [] (str "Internal Server Error") none) := by rfl
example :
    handle_client fs1 (str "/tmp/")
        (str "PUT /x HTTP/1.1\r\nUser-Agent: u\r\n\r\n") =
      some (HttpResponse.new .NotFound [⟨.UserAgent, str " u"⟩] (str "Not Found") none) := by rfl
example :
    HttpResponse.body_to_bytes codecs0 (HttpResponse.new .Ok [] (str "abc") none) =
      utf8Bytes (str "HTTP/1.1 200 OK\r\nContent-Type: text/plain\r\nContent-Length: 3\r\n\r\nabc") := by
  rfl
example :
    HttpResponse.body_to_bytes codecs0 (HttpResponse.new .Ok [] (str "abc") (some .Gzip)) =
      utf8Bytes (str "HTTP/1.1 200 OK\r\nContent-Type: text/plain\r\nContent-Encoding: gzip\r\nContent-Length: 1\r\n\r\n") ++ [0] := by
  rfl
end BehaviorChecks
